import Mathlib

/-!
Verification of the timage registry client and content store.

This development shallowly embeds the Go source of the repository:

* string primitives used by the code (`strings.ReplaceAll`, `strings.Contains`,
  `strings.Index`, `strings.LastIndex`, `strings.HasPrefix`) as executable
  functions on `List Char`;
* `parseImageRef` (cmd/pull.go), the pull-path manifest storage conversion
  (cmd/pull.go), the push-path blob-upload error classification (cmd/push.go);
* the registry client: `doRequest` (client request layer), `GetManifest`,
  `GetManifestRaw`, `StartBlobUpload`/`UploadBlobMonolithic` (pkg/registry),
  and the authentication handler (pkg/registry/auth.go);
* the storage layout: the current `_COLON_`/`_SLASH_` encoding, the legacy
  `_` encoding with its heuristic decode, `findImageDir`, `ImageExists`,
  `RemoveImage` (pkg/storage).

Network transports, the filesystem and the JSON decoder are modelled
abstractly: HTTP responses are explicit records, the blob store is a partial
map from names to byte strings, and the filesystem is the list of existing
paths.  All definitions are executable.
-/

namespace Timage

/-! ### List-of-characters string primitives

Go's `strings` functions used by the repository, embedded on `List Char`.
Go strings are byte strings; the repository only ever manipulates ASCII
separators and tokens, for which `List Char` is a faithful model. -/

/-- Prefix test on character lists (Go `strings.HasPrefix` on the tails seen
by `strings.ReplaceAll` / `strings.Index`). -/
def isPre : List Char → List Char → Bool
  | [], _ => true
  | _ :: _, [] => false
  | p :: ps, s :: ss => p == s && isPre ps ss

/-- Substring containment (Go `strings.Contains`). -/
def containsSub : List Char → List Char → Bool
  | [], pat => isPre pat []
  | s@(_ :: rest), pat => isPre pat s || containsSub rest pat

/-- Fuel-indexed leftmost non-overlapping replacement: the scan of Go's
`strings.ReplaceAll` (and `bytes.ReplaceAll`).  The fuel only serves to make
the recursion structural; `fuel ≥ s.length` suffices for a non-empty
pattern. -/
def repl (pat rep : List Char) : Nat → List Char → List Char
  | _, [] => []
  | 0, s => s
  | fuel + 1, c :: rest =>
    if isPre pat (c :: rest) then
      rep ++ repl pat rep fuel ((c :: rest).drop pat.length)
    else
      c :: repl pat rep fuel rest

/-- `strings.ReplaceAll s pat rep` for a non-empty pattern. -/
def replaceAllL (s pat rep : List Char) : List Char :=
  repl pat rep s.length s

/-- String-level wrapper for `strings.ReplaceAll`. -/
def replaceAllStr (s pat rep : String) : String :=
  String.mk (replaceAllL s.data pat.data rep.data)

/-! ### Character-wise expansion

`strings.ReplaceAll` with a single-character pattern acts independently on
each character; `encChars` is that character-wise action. -/

/-- Apply a character-to-string substitution to every character. -/
def encChars (f : Char → List Char) : List Char → List Char
  | [] => []
  | c :: rest => f c ++ encChars f rest

/-! ### Storage name encodings (pkg/storage layout)

`Layout.GetImageDir` encodes a reference into a directory name by replacing
`:` with `_COLON_` and `/` with `_SLASH_`; `Layout.ListImages` decodes new
format directory names by the reverse replacements.  The legacy encoding
replaced both separators with `_`; `decodeOldEncoding` heuristically decodes
it: the last `_` becomes `:`, all earlier `_` become `/`. -/

def colonTok : List Char := ['_', 'C', 'O', 'L', 'O', 'N', '_']

def slashTok : List Char := ['_', 'S', 'L', 'A', 'S', 'H', '_']

/-- The current on-disk encoding (`Layout.GetImageDir`):
`ReplaceAll(name, ":", "_COLON_")` then `ReplaceAll(·, "/", "_SLASH_")`. -/
def encodeNewL (l : List Char) : List Char :=
  replaceAllL (replaceAllL l [':'] colonTok) ['/'] slashTok

/-- The current-format decode used by `Layout.ListImages`:
`ReplaceAll(dir, "_SLASH_", "/")` then `ReplaceAll(·, "_COLON_", ":")`. -/
def decodeNewL (l : List Char) : List Char :=
  replaceAllL (replaceAllL l slashTok ['/']) colonTok [':']

/-- `encodeOldEncoding`: both `:` and `/` replaced by `_`. -/
def encodeOldL (l : List Char) : List Char :=
  replaceAllL (replaceAllL l [':'] ['_']) ['/'] ['_']

/-- Index of the last `_` (Go `strings.LastIndex(dirName, "_")`), `none` for
`-1`. -/
def lastUnderscore : List Char → Option Nat
  | [] => none
  | c :: rest =>
    match lastUnderscore rest with
    | some i => some (i + 1)
    | none => if c = '_' then some 0 else none

/-- `decodeOldEncoding`: if there is no `_` the name is returned unchanged;
otherwise the part before the last `_` has every `_` replaced by `/` and the
last `_` becomes the `:` tag separator. -/
def decodeOldL (l : List Char) : List Char :=
  match lastUnderscore l with
  | none => l
  | some i => replaceAllL (l.take i) ['_'] ['/'] ++ ':' :: l.drop (i + 1)

/-- String-level current encoding. -/
def encodeNewStr (s : String) : String := String.mk (encodeNewL s.data)

/-- String-level current-format decode. -/
def decodeNewStr (s : String) : String := String.mk (decodeNewL s.data)

/-- String-level legacy encoding. -/
def encodeOldStr (s : String) : String := String.mk (encodeOldL s.data)

/-- String-level legacy heuristic decode. -/
def decodeOldStr (s : String) : String := String.mk (decodeOldL s.data)

/-! ### Character-wise views of the encodings -/

/-- Character action of the full current encoding. -/
def encNewChar (c : Char) : List Char :=
  if c = ':' then colonTok else if c = '/' then slashTok else [c]

/-- Character action of the colon-only half of the current encoding. -/
def encColonChar (c : Char) : List Char :=
  if c = ':' then colonTok else [c]

/-- Character action of the legacy encoding. -/
def encOldChar (c : Char) : Char :=
  if c = ':' ∨ c = '/' then '_' else c

/-- Character action of the legacy heuristic decode applied before the tag
separator. -/
def decOldChar (c : Char) : Char :=
  if c = '_' then '/' else c

/-! ### More Go string primitives -/

/-- Go `strings.HasPrefix`. -/
def hasPrefixStr (s p : String) : Bool := isPre p.data s.data

/-- Go `strings.Contains`. -/
def containsStr (s pat : String) : Bool := containsSub s.data pat.data

/-- Index of the first occurrence of a character (`strings.Index` with a
single-character separator), `none` for `-1`. -/
def indexOfCh (c : Char) : List Char → Option Nat
  | [] => none
  | x :: rest => if x = c then some 0 else (indexOfCh c rest).map (· + 1)

/-- Split at the first occurrence of a character: the part before and the part
after the separator. -/
def splitFirst (c : Char) : List Char → Option (List Char × List Char)
  | [] => none
  | x :: r =>
    if x = c then some ([], r)
    else (splitFirst c r).map (fun p => (x :: p.1, p.2))

/-- Split at the last occurrence of a character. -/
def splitLast (c : Char) : List Char → Option (List Char × List Char)
  | [] => none
  | x :: r =>
    match splitLast c r with
    | some (a, b) => some (x :: a, b)
    | none => if x = c then some ([], r) else none

/-- Go `strings.TrimPrefix`. -/
def trimPrefixL (p l : List Char) : List Char :=
  if isPre p l then l.drop p.length else l

/-- Go `strings.Split` with a single-character separator. -/
def splitOnCharL (sep : Char) : List Char → List (List Char)
  | [] => [[]]
  | c :: rest =>
    match splitOnCharL sep rest with
    | [] => [[]]
    | h :: t => if c = sep then [] :: h :: t else (c :: h) :: t

/-- Go `strings.TrimSpace` (ASCII whitespace suffices here). -/
def trimSpaceL (l : List Char) : List Char :=
  ((l.dropWhile Char.isWhitespace).reverse.dropWhile Char.isWhitespace).reverse

/-- Go `strings.Trim(v, "\"")`: strip leading and trailing double quotes. -/
def trimQuotesL (l : List Char) : List Char :=
  ((l.dropWhile (fun c => c == '"')).reverse.dropWhile (fun c => c == '"')).reverse

/-! ### Reference parsing (cmd/pull.go `parseImageRef`) -/

/-- `parseImageRef` from cmd/pull.go, returning `(name, tag, registry)`:
defaults `registry = "docker.io"`, `tag = "latest"`; the prefix before the
first `/` becomes the registry only if it contains `.` or `:`; the remaining
name is split at the **first** `:` (`strings.Index`) into name and tag; a
name without `/` on the default registry gets the `library/` prefix. -/
def parseImageRefL (l : List Char) : List Char × List Char × List Char :=
  let regRest : List Char × List Char :=
    match indexOfCh '/' l with
    | none => ("docker.io".data, l)
    | some idx =>
      let potential := l.take idx
      if containsSub potential ['.'] || containsSub potential [':'] then
        (potential, l.drop (idx + 1))
      else ("docker.io".data, l)
  let nameTag : List Char × List Char :=
    match indexOfCh ':' regRest.2 with
    | none => (regRest.2, "latest".data)
    | some idx => (regRest.2.take idx, regRest.2.drop (idx + 1))
  let name :=
    if regRest.1 = "docker.io".data ∧ containsSub nameTag.1 ['/'] = false then
      "library/".data ++ nameTag.1
    else nameTag.1
  (name, nameTag.2, regRest.1)

/-- String-level `parseImageRef`. -/
def parseImageRef (s : String) : String × String × String :=
  let r := parseImageRefL s.data
  (String.mk r.1, String.mk r.2.1, String.mk r.2.2)

/-- The parsing scheme described by a split policy for the tag separator:
registry = prefix before the first `/` when that prefix contains `.` or `:`
(else `docker.io`, nothing stripped); tag by the given split of the remaining
name (default `latest`); `library/` prefix for single-segment names on the
default registry. -/
def parseRefWith (tagSplit : List Char → Option (List Char × List Char))
    (l : List Char) : List Char × List Char × List Char :=
  let regRest : List Char × List Char :=
    match splitFirst '/' l with
    | some p => if '.' ∈ p.1 ∨ ':' ∈ p.1 then p else ("docker.io".data, l)
    | none => ("docker.io".data, l)
  let nameTag : List Char × List Char :=
    match tagSplit regRest.2 with
    | some p => p
    | none => (regRest.2, "latest".data)
  let name :=
    if regRest.1 = "docker.io".data ∧ '/' ∉ nameTag.1 then
      "library/".data ++ nameTag.1
    else nameTag.1
  (name, nameTag.2, regRest.1)

/-- The claim's description of `parseImageRef`: the tag is obtained by
splitting the remaining name on the **last** `:`. -/
def parseImageRefLastColonL : List Char → List Char × List Char × List Char :=
  parseRefWith (splitLast ':')

/-- The amended description of `parseImageRef`: the tag is obtained by
splitting the remaining name on the **first** `:`. -/
def parseImageRefFirstColonL : List Char → List Char × List Char × List Char :=
  parseRefWith (splitFirst ':')

/-! ### Registry client data model (pkg/registry)

HTTP responses are explicit records of the fields the code reads; the
transport is an abstract function from attempt number and request to
response; the token endpoint is an abstract function from token request to
decoded token response.  HTTP Basic base64 encoding is abstracted by the
`Credential.basic` constructor. -/

structure HttpResponse where
  status : Nat
  contentType : String
  body : String
  wwwAuthenticate : String
  location : String
deriving DecidableEq

/-- Mutable auth state of a client session (`AuthConfig` in auth.go). -/
structure AuthConfig where
  username : String
  password : String
  token : String
deriving DecidableEq

/-- The credential attached to an outgoing request by `AuthHandler.AddAuth`. -/
inductive Credential where
  | anonymous
  | basic (username password : String)
  | bearer (token : String)
deriving DecidableEq

/-- `AuthHandler.AddAuth`: a bearer token if one is held, else basic
credentials if both were supplied, else nothing. -/
def addAuth (a : AuthConfig) : Credential :=
  if a.token ≠ "" then .bearer a.token
  else if a.username ≠ "" ∧ a.password ≠ "" then .basic a.username a.password
  else .anonymous

/-- An outgoing registry request as built by `Client.doRequest`: method, URL
(`baseURL + "/v2" + path`), the caller's headers, the attached credential and
the fixed API version header. -/
structure Request where
  method : String
  url : String
  headers : List (String × String)
  credential : Credential
  apiVersion : String
deriving DecidableEq

/-- Build the request exactly as `Client.doRequest` does (both on the first
attempt and on the retry). -/
def mkRequest (baseURL : String) (a : AuthConfig) (method path : String)
    (headers : List (String × String)) : Request :=
  ⟨method, baseURL ++ "/v2" ++ path, headers, addAuth a, "registry/2.0"⟩

/-- A token-endpoint request as issued by `AuthHandler.fetchToken`: a GET to
`realm` with `service` and `scope` query parameters and optional basic
auth. -/
structure TokenRequest where
  realm : String
  service : String
  scope : String
  basicAuth : Option (String × String)
deriving DecidableEq

/-- The decoded token-endpoint response (`TokenResponse` in auth.go; the JSON
decoding itself is abstracted). -/
structure TokenResponse where
  status : Nat
  token : String
  accessToken : String
deriving DecidableEq

/-! ### Authentication (pkg/registry/auth.go) -/

/-- `parseAuthHeader`: strip the `Bearer ` prefix, split on `,`, and collect
`key="value"` attributes (parts without `=` are skipped). -/
def parseAuthHeader (header : String) : List (String × String) :=
  let h := trimPrefixL "Bearer ".data header.data
  (splitOnCharL ',' h).foldl
    (fun acc part =>
      let part := trimSpaceL part
      if part = [] then acc
      else
        match splitFirst '=' part with
        | none => acc
        | some kv =>
          acc ++ [(String.mk (trimSpaceL kv.1), String.mk (trimQuotesL kv.2))])
    []

/-- Go map lookup over the collected attributes (later writes win). -/
def lookupParam (params : List (String × String)) (key : String) :
    Option String :=
  (params.reverse.find? (fun p => p.1 == key)).map (fun p => p.2)

/-- Replace the session token (`a.auth.Token = token`). -/
def withToken (a : AuthConfig) (t : String) : AuthConfig :=
  ⟨a.username, a.password, t⟩

/-- The token request `AuthHandler.fetchToken` issues: a GET to the realm
with the service and scope as query parameters, with basic auth attached
exactly when both credentials are known. -/
def fetchTokenRequest (a : AuthConfig) (realm service scope : String) :
    TokenRequest :=
  ⟨realm, service, scope,
    if a.username ≠ "" ∧ a.password ≠ "" then some (a.username, a.password)
    else none⟩

/-- `AuthHandler.fetchToken`: GET the realm with service/scope parameters,
basic auth attached when both credentials are known; on 200 return `token`
if non-empty, else `access_token` if non-empty, else fail. -/
def fetchToken (server : TokenRequest → TokenResponse) (a : AuthConfig)
    (realm service scope : String) : Except String String :=
  let resp := server (fetchTokenRequest a realm service scope)
  if resp.status ≠ 200 then
    .error ("token request failed with status: " ++ toString resp.status)
  else if resp.token ≠ "" then .ok resp.token
  else if resp.accessToken ≠ "" then .ok resp.accessToken
  else .error "no token in response"

/-- `AuthHandler.handleBearerAuth`: `realm` is required; on success the
fetched token is stored in the session auth state. -/
def handleBearerAuth (server : TokenRequest → TokenResponse) (a : AuthConfig)
    (authHeader : String) : Except String AuthConfig :=
  let params := parseAuthHeader authHeader
  match lookupParam params "realm" with
  | none => .error "no realm found in Www-Authenticate header"
  | some realm =>
    match fetchToken server a realm ((lookupParam params "service").getD "")
        ((lookupParam params "scope").getD "") with
    | .error e => .error ("failed to fetch token: " ++ e)
    | .ok t => .ok (withToken a t)

/-- `AuthHandler.HandleAuthChallenge`: missing `Www-Authenticate` header is an
error; `Bearer` resolves a token; `Basic` signals a bare retry; anything else
is unsupported. -/
def handleAuthChallenge (server : TokenRequest → TokenResponse)
    (a : AuthConfig) (resp : HttpResponse) : Except String AuthConfig :=
  let authHeader := resp.wwwAuthenticate
  if authHeader = "" then .error "no Www-Authenticate header found"
  else if hasPrefixStr authHeader "Bearer" then handleBearerAuth server a authHeader
  else if hasPrefixStr authHeader "Basic" then .ok a
  else .error ("unsupported authentication method: " ++ authHeader)

/-! ### Request layer (`Client.doRequest`) -/

/-- `Client.doRequest`: build the request, send it (attempt 0); on a 401
resolve the challenge and, only if that succeeded, re-issue the identical
request once with refreshed auth (attempt 1) and return that response as-is;
any non-401 first response is returned directly. -/
def doRequest (transport : Nat → Request → HttpResponse)
    (server : TokenRequest → TokenResponse) (baseURL : String)
    (a : AuthConfig) (method path : String)
    (headers : List (String × String)) :
    Except String (HttpResponse × AuthConfig) :=
  let req := mkRequest baseURL a method path headers
  let resp := transport 0 req
  if resp.status = 401 then
    match handleAuthChallenge server a resp with
    | .error e => .error ("authentication failed: " ++ e)
    | .ok a2 =>
      let req2 := mkRequest baseURL a2 method path headers
      .ok (transport 1 req2, a2)
  else .ok (resp, a)

/-! ### Manifests (pkg/registry manifest code) -/

structure Platform where
  architecture : String
  os : String
  variant : String
deriving DecidableEq

structure Layer where
  mediaType : String
  size : Nat
  digest : String
deriving DecidableEq

structure ManifestEntry where
  mediaType : String
  digest : String
  platform : Platform
deriving DecidableEq

structure Manifest where
  schemaVersion : Nat
  mediaType : String
  config : Layer
  layers : List Layer
  manifests : List ManifestEntry
deriving DecidableEq

def manifestListMT : String :=
  "application/vnd.docker.distribution.manifest.list.v2+json"

def ociIndexMT : String := "application/vnd.oci.image.index.v1+json"

def ociManifestMT : String := "application/vnd.oci.image.manifest.v1+json"

def dockerManifestMT : String :=
  "application/vnd.docker.distribution.manifest.v2+json"

def ociConfigMT : String := "application/vnd.oci.image.config.v1+json"

def dockerConfigMT : String :=
  "application/vnd.docker.container.image.v1+json"

def ociLayerMT : String := "application/vnd.oci.image.layer.v1.tar+gzip"

def dockerLayerMT : String :=
  "application/vnd.docker.image.rootfs.diff.tar.gzip"

/-- The manifest-list test of `Client.GetManifest`: the decoded manifest's own
`mediaType` or the response `Content-Type` names a Docker manifest list or an
OCI image index. -/
def isManifestList (mediaType contentType : String) : Bool :=
  mediaType == manifestListMT || contentType == manifestListMT ||
    mediaType == ociIndexMT || contentType == ociIndexMT

/-- The platform filter of `Client.GetManifest`. -/
def isLinuxAmd64 (e : ManifestEntry) : Bool :=
  e.platform.architecture == "amd64" && e.platform.os == "linux"

/-- `Client.GetManifest` over an abstract fetch function
`fetch name reference = some (contentType, decodedManifest)` (the HTTP and
JSON layers are abstracted; `none` covers any failed fetch).  The Go function
recurses unboundedly; the fuel only bounds the embedding's recursion. -/
def GetManifest (fetch : String → String → Option (String × Manifest)) :
    Nat → String → String → Except String Manifest
  | 0, _, _ => .error "resolution depth exceeded"
  | fuel + 1, name, reference =>
    match fetch name reference with
    | none => .error "failed to get manifest"
    | some cm =>
      if isManifestList cm.2.mediaType cm.1 then
        match cm.2.manifests.find? isLinuxAmd64 with
        | some e => GetManifest fetch fuel name e.digest
        | none => .error "no amd64 manifest found in manifest list"
      else .ok cm.2

/-- `Client.GetManifestRaw`: on a 200 response return the body bytes and the
`Content-Type` verbatim; any other status is an error carrying the body. -/
def getManifestRaw (resp : HttpResponse) : Except String (String × String) :=
  if resp.status ≠ 200 then
    .error ("unexpected status code " ++ toString resp.status ++ ": " ++
      resp.body)
  else .ok (resp.body, resp.contentType)

/-! ### Pull-path manifest storage (cmd/pull.go) and the store
(pkg/config/config.go `Store`)

The store is modelled as a map from image name to the manifest bytes held in
its `manifest.json`. -/

/-- The OCI→Docker media-type rewriting cmd/pull.go applies to the raw
manifest bytes before saving, when the content type is the OCI image
manifest type (three `bytes.ReplaceAll` passes). -/
def convertManifestForStorage (raw contentType : String) : String :=
  if contentType = ociManifestMT then
    replaceAllStr
      (replaceAllStr (replaceAllStr raw ociConfigMT dockerConfigMT)
        ociLayerMT dockerLayerMT)
      ociManifestMT dockerManifestMT
  else raw

/-- `Store.SaveManifestRaw`: write the given bytes, unchanged, as the image's
manifest. -/
def saveManifestRaw (store : String → Option String) (imageName data : String) :
    String → Option String :=
  fun n => if n = imageName then some data else store n

/-- `Store.LoadManifestRaw`: read the stored manifest bytes. -/
def loadManifestRaw (store : String → Option String) (imageName : String) :
    Option String :=
  store imageName

/-- The pull command's manifest-save step: convert (OCI only), then
`SaveManifestRaw`. -/
def pullSaveManifest (store : String → Option String)
    (imageName raw contentType : String) : String → Option String :=
  saveManifestRaw store imageName (convertManifestForStorage raw contentType)

/-! ### Blob upload (pkg/registry/blob.go) and the push caller's
idempotence policy (cmd/push.go) -/

/-- `Client.StartBlobUpload` as a function of the POST response: expect 202
and a `Location` header; relative locations are resolved against
`baseURL + "/v2"`. -/
def startBlobUpload (baseURL : String) (resp : HttpResponse) :
    Except String String :=
  if resp.status ≠ 202 then
    .error ("unexpected status code " ++ toString resp.status)
  else if resp.location = "" then .error "no upload URL in response"
  else if hasPrefixStr resp.location "http://" ||
      hasPrefixStr resp.location "https://" then
    .ok resp.location
  else .ok (baseURL ++ "/v2" ++ resp.location)

/-- `Client.UploadBlobMonolithic` as a function of the PUT response: expect
201, otherwise fail with the status and the response body text. -/
def uploadBlobMonolithic (putResp : HttpResponse) : Except String Unit :=
  if putResp.status ≠ 201 then
    .error ("unexpected status code " ++ toString putResp.status ++ ": " ++
      putResp.body)
  else .ok ()

/-- `Client.UploadBlob`: start an upload session, then monolithic PUT, with
the error wrapping used by the Go code. -/
def uploadBlob (baseURL : String) (postResp putResp : HttpResponse) :
    Except String Unit :=
  match startBlobUpload baseURL postResp with
  | .error e => .error ("failed to start upload: " ++ e)
  | .ok _ =>
    match uploadBlobMonolithic putResp with
    | .error e => .error ("failed to upload blob: " ++ e)
    | .ok _ => .ok ()

/-- The push command's already-exists test on an upload error's text. -/
def isBlobExistsError (msg : String) : Bool :=
  containsStr msg "BLOB_UPLOAD_INVALID" || containsStr msg "already exists" ||
    containsStr msg "exist blob"

/-- cmd/push.go's treatment of an `UploadBlob` result: success, or a failure
whose text matches the already-exists substrings, lets the push continue;
any other failure aborts the push. -/
def pushTreatsUploadAsSuccess : Except String Unit → Bool
  | .ok _ => true
  | .error e => isBlobExistsError e

/-! ### Store lookup and removal (pkg/storage `Layout`)

The filesystem is modelled as the list of existing paths (each stored image
is represented by its directory path); `os.RemoveAll` removes a path and
everything below it. -/

def pathExists (fs : List String) (p : String) : Bool := fs.contains p

/-- `os.RemoveAll dir`: drop the path and everything under it. -/
def removeAllFS (fs : List String) (dir : String) : List String :=
  fs.filter (fun q => !(q == dir || hasPrefixStr q (dir ++ "/")))

/-- `Layout.findImageDir`: probe the current-encoding directory first, then
the legacy-encoding directory; first hit wins. -/
def findImageDir (fs : List String) (rootDir imageName : String) :
    Option String :=
  let imagesDir := rootDir ++ "/images"
  let newPath := imagesDir ++ "/" ++ encodeNewStr imageName
  if pathExists fs newPath then some newPath
  else
    let oldPath := imagesDir ++ "/" ++ encodeOldStr imageName
    if pathExists fs oldPath then some oldPath else none

/-- `Layout.ImageExists`. -/
def imageExists (fs : List String) (rootDir imageName : String) : Bool :=
  (findImageDir fs rootDir imageName).isSome

/-- `Layout.RemoveImage`: error (and no change) when neither directory
exists, else remove the found directory wholesale. -/
def removeImage (fs : List String) (rootDir imageName : String) :
    Except String Unit × List String :=
  match findImageDir fs rootDir imageName with
  | none => (.error "image not found", fs)
  | some dir => (.ok (), removeAllFS fs dir)

/-! ### Concrete sample data (used by the witnesses) -/

/-- A concrete amd64 image manifest. -/
def sampleAmdManifest : Manifest :=
  ⟨2, dockerManifestMT, ⟨dockerConfigMT, 10, "sha256:cfg"⟩,
    [⟨dockerLayerMT, 5, "sha256:l1"⟩], []⟩

/-- An arm64/linux manifest-list entry. -/
def sampleEntryArm : ManifestEntry :=
  ⟨dockerManifestMT, "sha256:arm", ⟨"arm64", "linux", ""⟩⟩

/-- An amd64/linux manifest-list entry. -/
def sampleEntryAmd : ManifestEntry :=
  ⟨dockerManifestMT, "sha256:amd", ⟨"amd64", "linux", ""⟩⟩

/-- A concrete manifest list with the arm64 entry first. -/
def sampleListManifest : Manifest :=
  ⟨2, manifestListMT, ⟨"", 0, ""⟩, [], [sampleEntryArm, sampleEntryAmd]⟩

/-- A concrete registry: the tag resolves to the manifest list, the amd64
digest to the concrete manifest. -/
def sampleFetch : String → String → Option (String × Manifest) := fun _ ref =>
  if ref = "latest" then some (manifestListMT, sampleListManifest)
  else if ref = "sha256:amd" then some (dockerManifestMT, sampleAmdManifest)
  else none

/-- A 401 response carrying a Bearer challenge. -/
def sampleChallenge401 : HttpResponse :=
  ⟨401, "", "",
    "Bearer realm=\"https://auth.example/token\",service=\"registry\"", ""⟩

/-- A 401 response with no `Www-Authenticate` header at all. -/
def sampleBare401 : HttpResponse := ⟨401, "", "", "", ""⟩

/-- A successful manifest response. -/
def sampleOk200 : HttpResponse := ⟨200, dockerManifestMT, "manifest-bytes", "", ""⟩

/-- A transport that answers 401-with-challenge on the first attempt and 200
on the retry. -/
def sampleTransport : Nat → Request → HttpResponse := fun attempt _ =>
  if attempt = 0 then sampleChallenge401 else sampleOk200

/-- A transport that always answers 401 without a challenge header. -/
def sampleTransport401 : Nat → Request → HttpResponse := fun _ _ => sampleBare401

/-- A token endpoint that always hands out the token `tok123`. -/
def sampleTokenServer : TokenRequest → TokenResponse := fun _ => ⟨200, "tok123", ""⟩

/-- An anonymous auth configuration. -/
def sampleAnon : AuthConfig := ⟨"", "", ""⟩

/-- A 202 upload-session response with a relative location. -/
def samplePost202 : HttpResponse := ⟨202, "", "", "", "/uploads/session-1"⟩

/-- A failed PUT whose body reports the blob already exists. -/
def samplePutExists : HttpResponse :=
  ⟨400, "", "blob already exists in repository", "", ""⟩

/-- A failed PUT with an unrelated error body. -/
def samplePutDenied : HttpResponse := ⟨403, "", "access denied", "", ""⟩

/-- A store filesystem holding the same reference under both the current and
the legacy encoding. -/
def sampleFsBoth : List String :=
  ["/root/.timage/images/nginx_COLON_latest",
   "/root/.timage/images/nginx_latest"]

/-- A store filesystem holding the reference only under the current
encoding. -/
def sampleFsNew : List String := ["/root/.timage/images/nginx_COLON_latest"]

/-- Raw manifest bytes carrying an OCI config media type (brace-free sample
payload standing for the transmitted JSON). -/
def sampleOciRaw : String :=
  "mediaType application/vnd.oci.image.config.v1+json digest sha256 abc"

/-! ### Basic lemmas about the string primitives -/

theorem isPre_append_self (l t : List Char) : isPre l (l ++ t) = true := by
  induction l with
  | nil => rfl
  | cons c cs ih => simp [isPre, ih]

theorem isPre_of_append_left {a b s : List Char} (h : isPre (a ++ b) s = true) :
    isPre a s = true := by
  induction a generalizing s with
  | nil => rfl
  | cons c cs ih =>
    cases s with
    | nil => simp [isPre] at h
    | cons x xs =>
      simp only [List.cons_append, isPre, Bool.and_eq_true] at h ⊢
      exact ⟨h.1, ih h.2⟩

theorem containsSub_of_isPre {s pat : List Char} (h : isPre pat s = true) :
    containsSub s pat = true := by
  cases s with
  | nil => simpa [containsSub] using h
  | cons c rest => simp [containsSub, h]

theorem containsSub_cons_of {c : Char} {s pat : List Char}
    (h : containsSub s pat = true) : containsSub (c :: s) pat = true := by
  simp [containsSub, h]

theorem containsSub_append_left {a b pat : List Char}
    (h : containsSub b pat = true) : containsSub (a ++ b) pat = true := by
  induction a with
  | nil => simpa using h
  | cons c cs ih => exact containsSub_cons_of ih

/-- `repl` does not depend on the fuel once the fuel covers the input length
(for a non-empty pattern). -/
theorem repl_fuel_irrel {pat : List Char} (hp : pat ≠ []) (rep : List Char) :
    ∀ (f g : Nat) (s : List Char), s.length ≤ f → s.length ≤ g →
      repl pat rep f s = repl pat rep g s := by
  intro f
  induction f with
  | zero =>
    intro g s hf _
    have : s = [] := List.length_eq_zero.mp (Nat.le_zero.mp hf)
    subst this
    cases g <;> rfl
  | succ f ih =>
    intro g s hf hg
    cases s with
    | nil => cases g <;> rfl
    | cons c rest =>
      cases g with
      | zero => exact absurd hg (by simp)
      | succ g =>
        have hplen : 1 ≤ pat.length := by
          cases pat with
          | nil => exact absurd rfl hp
          | cons _ _ => simp
        have hf' : rest.length ≤ f := by simpa using hf
        have hg' : rest.length ≤ g := by simpa using hg
        cases hpre : isPre pat (c :: rest) with
        | true =>
          have hlen : ((c :: rest).drop pat.length).length ≤ f := by
            rw [List.length_drop]
            simp only [List.length_cons]
            omega
          have hlen' : ((c :: rest).drop pat.length).length ≤ g := by
            rw [List.length_drop]
            simp only [List.length_cons]
            omega
          simp only [repl, hpre, if_true]
          rw [ih g _ hlen hlen']
        | false =>
          simp only [repl, hpre, Bool.false_eq_true, if_false]
          rw [ih g rest hf' hg']

theorem replaceAllL_nil (pat rep : List Char) : replaceAllL [] pat rep = [] := rfl

/-- One scan step of `strings.ReplaceAll` when the pattern does not match at
the head. -/
theorem replaceAllL_cons_nomatch {pat : List Char} {c : Char} {t : List Char}
    (rep : List Char) (h : isPre pat (c :: t) = false) :
    replaceAllL (c :: t) pat rep = c :: replaceAllL t pat rep := by
  simp [replaceAllL, repl, h]

/-- One scan step of `strings.ReplaceAll` when the pattern matches at the
head: the replacement is emitted and the pattern's span is skipped. -/
theorem replaceAllL_cons_match {pat : List Char} (hp : pat ≠ []) {c : Char}
    {t : List Char} (rep : List Char) (h : isPre pat (c :: t) = true) :
    replaceAllL (c :: t) pat rep =
      rep ++ replaceAllL ((c :: t).drop pat.length) pat rep := by
  have hplen : 1 ≤ pat.length := by
    cases pat with
    | nil => exact absurd rfl hp
    | cons _ _ => simp
  simp only [replaceAllL, List.length_cons, repl, h, if_true]
  congr 1
  apply repl_fuel_irrel hp
  · rw [List.length_drop]
    simp only [List.length_cons]
    omega
  · exact Nat.le_refl _

/-- A full pattern match at the head of the scanned text. -/
theorem replaceAllL_append_self {pat : List Char} (hp : pat ≠ [])
    (rep t : List Char) :
    replaceAllL (pat ++ t) pat rep = rep ++ replaceAllL t pat rep := by
  cases pat with
  | nil => exact absurd rfl hp
  | cons p ps =>
    have hpre : isPre (p :: ps) ((p :: ps) ++ t) = true := isPre_append_self _ _
    rw [show ((p :: ps) ++ t = p :: (ps ++ t)) from rfl] at hpre ⊢
    rw [replaceAllL_cons_match hp rep hpre]
    congr 2
    simp [List.drop_append_of_le_length]

theorem encChars_append (f : Char → List Char) (a b : List Char) :
    encChars f (a ++ b) = encChars f a ++ encChars f b := by
  induction a with
  | nil => rfl
  | cons c cs ih => simp [encChars, ih]

theorem encChars_comp (f g : Char → List Char) (l : List Char) :
    encChars g (encChars f l) = encChars (fun c => encChars g (f c)) l := by
  induction l with
  | nil => rfl
  | cons c cs ih => simp [encChars, encChars_append, ih]

theorem encChars_congr {f g : Char → List Char} (h : ∀ c, f c = g c)
    (l : List Char) : encChars f l = encChars g l := by
  induction l with
  | nil => rfl
  | cons c cs ih => simp [encChars, h c, ih]

theorem encChars_eq_map (u : Char → Char) (l : List Char) :
    encChars (fun c => [u c]) l = l.map u := by
  induction l with
  | nil => rfl
  | cons c cs ih => simp [encChars, ih]

/-- `strings.ReplaceAll` with a single-character pattern is the character-wise
substitution of that character. -/
theorem replaceAllL_single (c : Char) (rep : List Char) (s : List Char) :
    replaceAllL s [c] rep =
      encChars (fun x => if x = c then rep else [x]) s := by
  induction s with
  | nil => rfl
  | cons x t ih =>
    have hpre : isPre [c] (x :: t) = (c == x) := by simp [isPre]
    by_cases hx : x = c
    · subst hx
      have : isPre [x] (x :: t) = true := by simp [hpre]
      rw [replaceAllL_cons_match (by simp) rep this]
      simp [encChars, ih]
    · have : isPre [c] (x :: t) = false := by
        simp [hpre, Ne.symm hx]
      rw [replaceAllL_cons_nomatch rep this]
      simp [encChars, hx, ih]

theorem encodeNewL_eq_encChars (l : List Char) :
    encodeNewL l = encChars encNewChar l := by
  unfold encodeNewL
  rw [replaceAllL_single, replaceAllL_single, encChars_comp]
  apply encChars_congr
  intro c
  by_cases hc : c = ':'
  · subst hc
    simp only [if_pos rfl]
    decide
  · by_cases hs : c = '/'
    · subst hs
      simp [encChars, encNewChar]
    · simp [hc, hs, encChars, encNewChar]

/-- Characters of the encoded stream that start a replacement token all start
with `_`; every other character maps to itself.  Hence a pattern made of
non-underscore characters can only match the encoded stream where it matches
the source. -/
theorem isPre_lift {enc : Char → List Char}
    (henc : ∀ c, enc c = [c] ∨ ∃ t, enc c = '_' :: t) :
    ∀ (l r : List Char), (∀ x ∈ l, x ≠ '_') →
      isPre l (encChars enc r) = true → isPre l r = true := by
  intro l
  induction l with
  | nil => intro r _ _; rfl
  | cons x xs ih =>
    intro r hchars hpre
    cases r with
    | nil => simp [encChars, isPre] at hpre
    | cons c r' =>
      rcases henc c with hc | ⟨t, hc⟩
      · rw [show encChars enc (c :: r') = enc c ++ encChars enc r' from rfl,
            hc] at hpre
        simp only [List.cons_append, List.nil_append, isPre,
          Bool.and_eq_true, beq_iff_eq] at hpre
        have hxs : ∀ y ∈ xs, y ≠ '_' := fun y hy =>
          hchars y (List.mem_cons_of_mem _ hy)
        have := ih r' hxs hpre.2
        simp [isPre, hpre.1, this]
      · rw [show encChars enc (c :: r') = enc c ++ encChars enc r' from rfl,
            hc] at hpre
        simp only [List.cons_append, isPre, Bool.and_eq_true,
          beq_iff_eq] at hpre
        exact absurd hpre.1 (hchars x (List.mem_cons_self _ _))

theorem encNewChar_shape (c : Char) :
    encNewChar c = [c] ∨ ∃ t, encNewChar c = '_' :: t := by
  by_cases hc : c = ':'
  · subst hc; right; exact ⟨['C', 'O', 'L', 'O', 'N', '_'], rfl⟩
  · by_cases hs : c = '/'
    · subst hs; right; exact ⟨['S', 'L', 'A', 'S', 'H', '_'], rfl⟩
    · left; simp [encNewChar, hc, hs]

theorem encColonChar_shape (c : Char) :
    encColonChar c = [c] ∨ ∃ t, encColonChar c = '_' :: t := by
  by_cases hc : c = ':'
  · subst hc; right; exact ⟨['C', 'O', 'L', 'O', 'N', '_'], rfl⟩
  · left; simp [encColonChar, hc]

/-- If `r` does not contain `SLASH` then the tail of the slash token cannot
match the current-encoded stream of `r`. -/
theorem no_slashTail_match {r : List Char}
    (h : containsSub r ['S', 'L', 'A', 'S', 'H'] = false) :
    isPre ['S', 'L', 'A', 'S', 'H', '_'] (encChars encNewChar r) = false := by
  cases hpre : isPre ['S', 'L', 'A', 'S', 'H', '_'] (encChars encNewChar r) with
  | false => rfl
  | true =>
    exfalso
    have h5 : isPre ['S', 'L', 'A', 'S', 'H'] (encChars encNewChar r) = true :=
      isPre_of_append_left
        (a := ['S', 'L', 'A', 'S', 'H']) (b := ['_']) hpre
    have h6 : isPre ['S', 'L', 'A', 'S', 'H'] r = true :=
      isPre_lift encNewChar_shape _ r (by decide) h5
    have := containsSub_of_isPre h6
    rw [h] at this
    exact Bool.false_ne_true this

/-- If `r` does not contain `COLON` then the tail of the colon token cannot
match the colon-only-encoded stream of `r`. -/
theorem no_colonTail_match {r : List Char}
    (h : containsSub r ['C', 'O', 'L', 'O', 'N'] = false) :
    isPre ['C', 'O', 'L', 'O', 'N', '_'] (encChars encColonChar r) = false := by
  cases hpre : isPre ['C', 'O', 'L', 'O', 'N', '_'] (encChars encColonChar r) with
  | false => rfl
  | true =>
    exfalso
    have h5 : isPre ['C', 'O', 'L', 'O', 'N'] (encChars encColonChar r) = true :=
      isPre_of_append_left
        (a := ['C', 'O', 'L', 'O', 'N']) (b := ['_']) hpre
    have h6 : isPre ['C', 'O', 'L', 'O', 'N'] r = true :=
      isPre_lift encColonChar_shape _ r (by decide) h5
    have := containsSub_of_isPre h6
    rw [h] at this
    exact Bool.false_ne_true this

/-- The decode scan for `_SLASH_` walks through a `_COLON_` token without
matching, provided the stream after the token cannot complete a match. -/
theorem replaceAll_slashTok_skips_colonTok (t : List Char)
    (h7 : isPre ['S', 'L', 'A', 'S', 'H', '_'] t = false) :
    replaceAllL (colonTok ++ t) slashTok ['/'] =
      colonTok ++ replaceAllL t slashTok ['/'] := by
  have p0 : isPre slashTok ('_' :: 'C' :: 'O' :: 'L' :: 'O' :: 'N' :: '_' ::t) = false := by
    simp [slashTok, isPre]
  have p1 : isPre slashTok ('C' :: 'O' :: 'L' :: 'O' :: 'N' :: '_' ::t) = false := by
    simp [slashTok, isPre]
  have p2 : isPre slashTok ('O' :: 'L' :: 'O' :: 'N' :: '_' ::t) = false := by
    simp [slashTok, isPre]
  have p3 : isPre slashTok ('L' :: 'O' :: 'N' :: '_' ::t) = false := by
    simp [slashTok, isPre]
  have p4 : isPre slashTok ('O' :: 'N' :: '_' ::t) = false := by
    simp [slashTok, isPre]
  have p5 : isPre slashTok ('N' :: '_' ::t) = false := by
    simp [slashTok, isPre]
  have p6 : isPre slashTok ('_' ::t) = false := by
    simp only [slashTok, isPre, Bool.and_eq_true]
    simp only [show ('_' == '_') = true by decide, Bool.true_and]
    exact h7
  show replaceAllL ('_' :: 'C' :: 'O' :: 'L' :: 'O' :: 'N' :: '_' ::t) slashTok ['/'] = _
  rw [replaceAllL_cons_nomatch _ p0, replaceAllL_cons_nomatch _ p1,
      replaceAllL_cons_nomatch _ p2, replaceAllL_cons_nomatch _ p3,
      replaceAllL_cons_nomatch _ p4, replaceAllL_cons_nomatch _ p5,
      replaceAllL_cons_nomatch _ p6]
  rfl

/-- First decode pass: replacing `_SLASH_` by `/` in the fully encoded stream
undoes exactly the slash half of the encoding, provided the source does not
contain the letters `SLASH`. -/
theorem decode_slash_pass (r : List Char)
    (h : containsSub r ['S', 'L', 'A', 'S', 'H'] = false) :
    replaceAllL (encChars encNewChar r) slashTok ['/'] =
      encChars encColonChar r := by
  induction r with
  | nil => rfl
  | cons c r' ih =>
    have hsub : containsSub r' ['S', 'L', 'A', 'S', 'H'] = false := by
      revert h
      simp only [containsSub, Bool.or_eq_false_iff]
      intro h
      exact h.2
    have ih' := ih hsub
    by_cases hc : c = ':'
    · subst hc
      show replaceAllL (colonTok ++ encChars encNewChar r') slashTok ['/'] = _
      rw [replaceAll_slashTok_skips_colonTok _ (no_slashTail_match hsub), ih']
      rfl
    · by_cases hs : c = '/'
      · subst hs
        show replaceAllL (slashTok ++ encChars encNewChar r') slashTok ['/'] = _
        rw [replaceAllL_append_self (by decide) _ _, ih']
        rfl
      · have hexp : encChars encNewChar (c :: r') =
            c :: encChars encNewChar r' := by
          simp [encChars, encNewChar, hc, hs]
        have hnm : isPre slashTok (c :: encChars encNewChar r') = false := by
          by_cases hu : c = '_'
          · subst hu
            simp only [slashTok, isPre, Bool.and_eq_true]
            simp only [show ('_' == '_') = true by decide, Bool.true_and]
            exact no_slashTail_match hsub
          · simp [slashTok, isPre, Ne.symm hu]
        rw [hexp, replaceAllL_cons_nomatch _ hnm, ih']
        simp [encChars, encColonChar, hc]

/-- Second decode pass: replacing `_COLON_` by `:` in the colon-only-encoded
stream restores the source, provided the source does not contain the letters
`COLON`. -/
theorem decode_colon_pass (r : List Char)
    (h : containsSub r ['C', 'O', 'L', 'O', 'N'] = false) :
    replaceAllL (encChars encColonChar r) colonTok [':'] = r := by
  induction r with
  | nil => rfl
  | cons c r' ih =>
    have hsub : containsSub r' ['C', 'O', 'L', 'O', 'N'] = false := by
      revert h
      simp only [containsSub, Bool.or_eq_false_iff]
      intro h
      exact h.2
    have ih' := ih hsub
    by_cases hc : c = ':'
    · subst hc
      show replaceAllL (colonTok ++ encChars encColonChar r') colonTok [':'] = _
      rw [replaceAllL_append_self (by decide) _ _, ih']
      rfl
    · have hexp : encChars encColonChar (c :: r') =
          c :: encChars encColonChar r' := by
        simp [encChars, encColonChar, hc]
      have hnm : isPre colonTok (c :: encChars encColonChar r') = false := by
        by_cases hu : c = '_'
        · subst hu
          simp only [colonTok, isPre, Bool.and_eq_true]
          simp only [show ('_' == '_') = true by decide, Bool.true_and]
          exact no_colonTail_match hsub
        · simp [colonTok, isPre, Ne.symm hu]
      rw [hexp, replaceAllL_cons_nomatch _ hnm, ih']

theorem currentEncoding_roundTrip_list (r : List Char)
    (hS : containsSub r ['S', 'L', 'A', 'S', 'H'] = false)
    (hC : containsSub r ['C', 'O', 'L', 'O', 'N'] = false) :
    decodeNewL (encodeNewL r) = r := by
  unfold decodeNewL
  rw [encodeNewL_eq_encChars, decode_slash_pass r hS, decode_colon_pass r hC]

theorem mk_data_eq (s : String) : String.mk s.data = s := by
  cases s
  rfl

/-- C5 (amended): the current encoding (`:` → `_COLON_`, `/` → `_SLASH_`)
followed by the decode used by `ListImages` (`_SLASH_` → `/`, `_COLON_` →
`:`) returns the reference unchanged for every reference in which the letter
sequences `SLASH` and `COLON` do not occur — in particular for every
reference built only from the characters of ordinary image names.  (The
unrestricted claim is false: see the counterexample.) -/
theorem currentEncoding_roundTrip (r : String)
    (hS : containsStr r "SLASH" = false)
    (hC : containsStr r "COLON" = false) :
    decodeNewStr (encodeNewStr r) = r := by
  have hS' : containsSub r.data ['S', 'L', 'A', 'S', 'H'] = false := hS
  have hC' : containsSub r.data ['C', 'O', 'L', 'O', 'N'] = false := hC
  show String.mk (decodeNewL (String.mk (encodeNewL r.data)).data) = r
  rw [show (String.mk (encodeNewL r.data)).data = encodeNewL r.data from rfl,
    currentEncoding_roundTrip_list r.data hS' hC', mk_data_eq]

/-- C5 counterexample: a reference containing both `/` and `:` for which the
decode of the encode differs from the original, refuting the unconditional
round-trip. -/
theorem currentEncoding_roundTrip_counterexample :
    containsStr "a/b:c_COLON_d" "/" = true ∧
    containsStr "a/b:c_COLON_d" ":" = true ∧
    decodeNewStr (encodeNewStr "a/b:c_COLON_d") ≠ "a/b:c_COLON_d" := by
  decide

/-- C5 witness: the round-trip at a concrete well-formed reference. -/
theorem currentEncoding_roundTrip_witness :
    containsStr "docker.io/library/nginx:latest" "SLASH" = false ∧
    containsStr "docker.io/library/nginx:latest" "COLON" = false ∧
    decodeNewStr (encodeNewStr "docker.io/library/nginx:latest") =
      "docker.io/library/nginx:latest" :=
  ⟨by decide, by decide,
    currentEncoding_roundTrip "docker.io/library/nginx:latest" (by decide)
      (by decide)⟩

/-! ### Legacy encoding round-trip (C6) -/

theorem replaceAllL_single_map (c d : Char) (s : List Char) :
    replaceAllL s [c] [d] = s.map (fun x => if x = c then d else x) := by
  rw [replaceAllL_single]
  rw [encChars_congr (g := fun x => [if x = c then d else x])
    (fun x => by by_cases hx : x = c <;> simp [hx])]
  exact encChars_eq_map _ s

theorem encodeOldL_eq_map (l : List Char) :
    encodeOldL l = l.map encOldChar := by
  unfold encodeOldL
  rw [replaceAllL_single_map, replaceAllL_single_map, List.map_map]
  apply List.map_congr_left
  intro x _
  by_cases hc : x = ':'
  · simp [hc, Function.comp, encOldChar]
  · by_cases hs : x = '/'
    · simp [hc, hs, Function.comp, encOldChar]
    · simp [hc, hs, Function.comp, encOldChar]

theorem lastUnderscore_eq_none {t : List Char} (h : '_' ∉ t) :
    lastUnderscore t = none := by
  induction t with
  | nil => rfl
  | cons c rest ih =>
    have hc : c ≠ '_' := fun hc => h (hc ▸ List.mem_cons_self _ _)
    have hr : '_' ∉ rest := fun hr => h (List.mem_cons_of_mem _ hr)
    simp [lastUnderscore, ih hr, hc]

theorem lastUnderscore_append {t : List Char} (a : List Char)
    (h : '_' ∉ t) : lastUnderscore (a ++ '_' :: t) = some a.length := by
  induction a with
  | nil => simp [lastUnderscore, lastUnderscore_eq_none h]
  | cons c rest ih => simp [lastUnderscore, ih]

theorem take_len_append (a b : List α) : (a ++ b).take a.length = a := by
  induction a with
  | nil => rfl
  | cons c rest ih => simp [ih]

theorem drop_len_succ_append (a : List α) (c : α) (b : List α) :
    (a ++ c :: b).drop (a.length + 1) = b := by
  induction a with
  | nil => rfl
  | cons x rest ih => simp [ih]

theorem containsSub_single_iff_mem {c : Char} {l : List Char} :
    containsSub l [c] = true ↔ c ∈ l := by
  induction l with
  | nil => simp [containsSub, isPre]
  | cons x rest ih =>
    have hp : isPre [c] (x :: rest) = (c == x) := by simp [isPre]
    show (isPre [c] (x :: rest) || containsSub rest [c]) = true ↔ _
    rw [hp]
    cases hcx : (c == x) with
    | true =>
      have hc : c = x := eq_of_beq hcx
      simp [hc, List.mem_cons]
    | false =>
      have hc : ¬c = x := by
        intro h
        rw [h] at hcx
        simp at hcx
      simp [List.mem_cons, hc, ih]

theorem legacyEncoding_roundTrip_list (p t : List Char)
    (hpU : '_' ∉ p) (hpC : ':' ∉ p)
    (htU : '_' ∉ t) (htC : ':' ∉ t) (htS : '/' ∉ t) :
    decodeOldL (encodeOldL (p ++ ':' :: t)) = p ++ ':' :: t := by
  rw [encodeOldL_eq_map]
  have hmap : (p ++ ':' :: t).map encOldChar =
      p.map encOldChar ++ '_' :: t.map encOldChar := by
    simp [encOldChar]
  have htmap : t.map encOldChar = t := by
    conv_rhs => rw [show t = t.map id from (List.map_id t).symm]
    apply List.map_congr_left
    intro x hx
    have hxC : x ≠ ':' := fun hc => htC (hc ▸ hx)
    have hxS : x ≠ '/' := fun hc => htS (hc ▸ hx)
    simp [encOldChar, hxC, hxS]
  rw [hmap, htmap]
  unfold decodeOldL
  rw [lastUnderscore_append _ htU]
  simp only []
  rw [show (p.map encOldChar).length = (p.map encOldChar).length from rfl]
  rw [take_len_append, drop_len_succ_append, replaceAllL_single_map,
    List.map_map]
  congr 1
  conv_rhs => rw [show p = p.map id from (List.map_id p).symm]
  apply List.map_congr_left
  intro x hx
  have hxU : x ≠ '_' := fun hc => hpU (hc ▸ hx)
  have hxC : x ≠ ':' := fun hc => hpC (hc ▸ hx)
  by_cases hxS : x = '/'
  · simp [Function.comp, encOldChar, hxS]
  · simp [Function.comp, encOldChar, hxC, hxS, hxU]

/-- C6 (amended): for a reference `repo:tag` in which the repository part
contains neither `_` nor `:` and the tag contains none of `_`, `:`, `/`,
legacy-encoding then heuristically decoding returns the reference unchanged.
(The claim's own restriction — only the repository segments must avoid `_` —
is not enough: an `_` in the tag also breaks the round-trip, see the
counterexample.) -/
theorem legacyEncoding_roundTrip (p t : String)
    (hpU : containsStr p "_" = false) (hpC : containsStr p ":" = false)
    (htU : containsStr t "_" = false) (htC : containsStr t ":" = false)
    (htS : containsStr t "/" = false) :
    decodeOldStr (encodeOldStr (p ++ ":" ++ t)) = p ++ ":" ++ t := by
  have hdata : (p ++ ":" ++ t).data = p.data ++ ':' :: t.data := by
    simp [String.data_append]
  have hconv : ∀ (s : String) (c : Char), containsSub s.data [c] = false →
      c ∉ s.data := by
    intro s c hfalse hm
    have := containsSub_single_iff_mem.mpr hm
    rw [hfalse] at this
    exact Bool.false_ne_true this
  have hpU' : '_' ∉ p.data := hconv p '_' hpU
  have hpC' : ':' ∉ p.data := hconv p ':' hpC
  have htU' : '_' ∉ t.data := hconv t '_' htU
  have htC' : ':' ∉ t.data := hconv t ':' htC
  have htS' : '/' ∉ t.data := hconv t '/' htS
  show String.mk (decodeOldL (String.mk (encodeOldL (p ++ ":" ++ t).data)).data) = _
  rw [show ∀ l, (String.mk l).data = l from fun _ => rfl, hdata,
    legacyEncoding_roundTrip_list p.data t.data hpU' hpC' htU' htC' htS']
  rw [← hdata, mk_data_eq]

/-- C6 counterexample: the repository part `nginx` contains no `_`, yet the
legacy round-trip fails because the tag contains an `_`. -/
theorem legacyEncoding_roundTrip_counterexample :
    containsStr "nginx" "_" = false ∧
    decodeOldStr (encodeOldStr "nginx:1.2_3") ≠ "nginx:1.2_3" ∧
    decodeOldStr (encodeOldStr "nginx:1.2_3") = "nginx/1.2:3" := by
  decide

/-- C6 witness: the legacy round-trip at a concrete underscore-free
reference. -/
theorem legacyEncoding_roundTrip_witness :
    containsStr "docker.io/library/nginx" "_" = false ∧
    containsStr "latest" "_" = false ∧
    decodeOldStr (encodeOldStr ("docker.io/library/nginx" ++ ":" ++ "latest")) =
      "docker.io/library/nginx" ++ ":" ++ "latest" :=
  ⟨by decide, by decide,
    legacyEncoding_roundTrip "docker.io/library/nginx" "latest" (by decide)
      (by decide) (by decide) (by decide) (by decide)⟩

/-! ### Reference parsing (C1) -/

theorem splitFirst_eq_indexOf (c : Char) (l : List Char) :
    splitFirst c l =
      (indexOfCh c l).map (fun i => (l.take i, l.drop (i + 1))) := by
  induction l with
  | nil => rfl
  | cons x r ih =>
    by_cases hx : x = c
    · simp [splitFirst, indexOfCh, hx]
    · simp only [splitFirst, indexOfCh, hx, if_false, ih]
      cases indexOfCh c r with
      | none => rfl
      | some i => rfl

theorem contains_dot_or_colon_iff (n : List Char) :
    (containsSub n ['.'] || containsSub n [':']) = true ↔
      ('.' ∈ n ∨ ':' ∈ n) := by
  simp [Bool.or_eq_true, containsSub_single_iff_mem]

theorem not_contains_slash_iff (n : List Char) :
    containsSub n ['/'] = false ↔ '/' ∉ n := by
  cases hb : containsSub n ['/'] with
  | true =>
    simp only [Bool.true_eq_false, false_iff]
    intro hmem
    exact hmem (containsSub_single_iff_mem.mp hb)
  | false =>
    simp only [true_iff]
    intro hmem
    have := containsSub_single_iff_mem.mpr hmem
    rw [hb] at this
    exact Bool.false_ne_true this

/-- C1 (amended): `parseImageRef` realizes exactly the claimed parsing scheme
with one correction: the tag is obtained by splitting the remaining name at
the **first** `:` (Go `strings.Index`), not the last.  The registry-host rule
(prefix before the first `/` only when it contains `.` or `:`, else
`docker.io` with nothing stripped), the `latest` default, and the `library/`
prefix for single-segment names on the default registry are as claimed. -/
theorem parseImageRef_characterization (l : List Char) :
    parseImageRefL l = parseImageRefFirstColonL l := by
  unfold parseImageRefL parseImageRefFirstColonL parseRefWith
  simp only [splitFirst_eq_indexOf]
  cases h1 : indexOfCh '/' l with
  | none =>
    simp only [h1, Option.map_none']
    cases h2 : indexOfCh ':' l with
    | none =>
      simp only [h2, Option.map_none']
      rw [if_congr (and_congr_right fun _ => not_contains_slash_iff l) rfl rfl]
    | some i =>
      simp only [h2, Option.map_some']
      rw [if_congr (and_congr_right fun _ =>
        not_contains_slash_iff (l.take i)) rfl rfl]
  | some i =>
    simp only [h1, Option.map_some']
    by_cases hcond : ('.' ∈ l.take i ∨ ':' ∈ l.take i)
    · rw [if_pos ((contains_dot_or_colon_iff (l.take i)).mpr hcond),
        if_pos hcond]
      cases h2 : indexOfCh ':' (l.drop (i + 1)) with
      | none =>
        simp only [h2, Option.map_none']
        rw [if_congr (and_congr_right fun _ =>
          not_contains_slash_iff (l.drop (i + 1))) rfl rfl]
      | some j =>
        simp only [h2, Option.map_some']
        rw [if_congr (and_congr_right fun _ =>
          not_contains_slash_iff ((l.drop (i + 1)).take j)) rfl rfl]
    · rw [if_neg (fun h => hcond ((contains_dot_or_colon_iff (l.take i)).mp h)),
        if_neg hcond]
      cases h2 : indexOfCh ':' l with
      | none =>
        simp only [h2, Option.map_none']
        rw [if_congr (and_congr_right fun _ =>
          not_contains_slash_iff l) rfl rfl]
      | some j =>
        simp only [h2, Option.map_some']
        rw [if_congr (and_congr_right fun _ =>
          not_contains_slash_iff (l.take j)) rfl rfl]

/-- C1 counterexample: on `"a:b:c"` the code splits the tag at the first
`:` (giving name `library/a`, tag `b:c`), while the claim's last-`:` scheme
would give name `library/a:b`, tag `c`. -/
theorem parseImageRef_counterexample :
    parseImageRefL "a:b:c".data ≠ parseImageRefLastColonL "a:b:c".data ∧
    parseImageRefL "a:b:c".data =
      ("library/a".data, "b:c".data, "docker.io".data) ∧
    parseImageRefLastColonL "a:b:c".data =
      ("library/a:b".data, "c".data, "docker.io".data) := by
  decide

/-! ### Manifest-list resolution (C3) -/

theorem find?_eq_get_of_first {α : Type} {p : α → Bool} :
    ∀ (l : List α) (i : Nat) (hi : i < l.length),
      p (l.get ⟨i, hi⟩) = true →
      (∀ (j : Nat) (hj : j < i), p (l.get ⟨j, Nat.lt_trans hj hi⟩) = false) →
      l.find? p = some (l.get ⟨i, hi⟩) := by
  intro l
  induction l with
  | nil => intro i hi; exact absurd hi (by simp)
  | cons a rest ih =>
    intro i hi hp hmin
    cases i with
    | zero =>
      simp only [List.get] at hp
      simp [List.find?, hp]
    | succ i =>
      have ha : p a = false := hmin 0 (Nat.succ_pos i)
      have hi' : i < rest.length := Nat.lt_of_succ_lt_succ hi
      have hp' : p (rest.get ⟨i, hi'⟩) = true := hp
      have hmin' : ∀ (j : Nat) (hj : j < i),
          p (rest.get ⟨j, Nat.lt_trans hj hi'⟩) = false := fun j hj =>
        hmin (j + 1) (Nat.succ_lt_succ hj)
      simp only [List.find?, ha]
      exact ih i hi' hp' hmin'

/-- C3: `GetManifest` on a result identified (by its `mediaType` or the
response content type) as a manifest list or OCI index recurses with the
digest of the first entry in `manifests` order whose platform is exactly
amd64/linux; if no entry matches it fails with the no-suitable-platform
error and tries no fallback; a non-list manifest is returned as-is. -/
theorem getManifest_platform_resolution
    (fetch : String → String → Option (String × Manifest)) (fuel : Nat)
    (name reference ct : String) (m : Manifest)
    (hf : fetch name reference = some (ct, m)) :
    (isManifestList m.mediaType ct = false →
      GetManifest fetch (fuel + 1) name reference = .ok m) ∧
    (isManifestList m.mediaType ct = true →
      ((∀ e ∈ m.manifests, isLinuxAmd64 e = false) →
        GetManifest fetch (fuel + 1) name reference =
          .error "no amd64 manifest found in manifest list") ∧
      (∀ (i : Nat) (hi : i < m.manifests.length),
        isLinuxAmd64 (m.manifests.get ⟨i, hi⟩) = true →
        (∀ (j : Nat) (hj : j < i),
          isLinuxAmd64 (m.manifests.get ⟨j, Nat.lt_trans hj hi⟩) = false) →
        GetManifest fetch (fuel + 1) name reference =
          GetManifest fetch fuel name (m.manifests.get ⟨i, hi⟩).digest)) := by
  refine ⟨fun hlist => ?_, fun hlist => ⟨fun hall => ?_, fun i hi hp hmin => ?_⟩⟩
  · simp [GetManifest, hf, hlist]
  · have hnone : m.manifests.find? isLinuxAmd64 = none :=
      List.find?_eq_none.mpr fun x hx => by simp [hall x hx]
    simp [GetManifest, hf, hlist, hnone]
  · have hfind := find?_eq_get_of_first m.manifests i hi hp hmin
    simp [GetManifest, hf, hlist, hfind]

/-- C3 witness: the sample manifest list (arm64 entry first, amd64 second)
resolves through the amd64 entry's digest to the concrete amd64 manifest. -/
theorem getManifest_platform_resolution_witness :
    GetManifest sampleFetch 2 "library/nginx" "latest" =
      GetManifest sampleFetch 1 "library/nginx" "sha256:amd" ∧
    GetManifest sampleFetch 2 "library/nginx" "latest" =
      .ok sampleAmdManifest := by
  constructor
  · exact
      (((getManifest_platform_resolution sampleFetch 1 "library/nginx"
        "latest" manifestListMT sampleListManifest (by decide)).2
        (by decide)).2 1 (by decide) (by decide)
        (fun j hj => by
          have hj0 : j = 0 := Nat.lt_one_iff.mp hj
          subst hj0
          exact (by decide : isLinuxAmd64 sampleEntryArm = false)))
  · rfl

/-! ### Request retry policy (C4, C10) -/

/-- C4: a non-401 first response is returned as-is with its unchanged auth
state; on a 401, failed challenge resolution yields an authentication error
with no retry, while successful resolution re-issues the identical request
(same method, URL, headers, fixed API header — only the credential is
refreshed) exactly once and returns the second response as-is; the result
never depends on the transport beyond attempts 0 and 1. -/
theorem doRequest_retry_policy
    (transport : Nat → Request → HttpResponse)
    (server : TokenRequest → TokenResponse) (baseURL : String)
    (a : AuthConfig) (method path : String)
    (headers : List (String × String)) :
    ((transport 0 (mkRequest baseURL a method path headers)).status ≠ 401 →
      doRequest transport server baseURL a method path headers =
        .ok (transport 0 (mkRequest baseURL a method path headers), a)) ∧
    ((transport 0 (mkRequest baseURL a method path headers)).status = 401 →
      (∀ e, handleAuthChallenge server a
          (transport 0 (mkRequest baseURL a method path headers)) =
          .error e →
        doRequest transport server baseURL a method path headers =
          .error ("authentication failed: " ++ e)) ∧
      (∀ a2, handleAuthChallenge server a
          (transport 0 (mkRequest baseURL a method path headers)) = .ok a2 →
        doRequest transport server baseURL a method path headers =
          .ok (transport 1 (mkRequest baseURL a2 method path headers), a2) ∧
        (mkRequest baseURL a2 method path headers).method = method ∧
        (mkRequest baseURL a2 method path headers).url =
          (mkRequest baseURL a method path headers).url ∧
        (mkRequest baseURL a2 method path headers).headers = headers ∧
        (mkRequest baseURL a2 method path headers).apiVersion =
          "registry/2.0" ∧
        (mkRequest baseURL a2 method path headers).credential = addAuth a2)) ∧
    (∀ transport2 : Nat → Request → HttpResponse,
      transport2 0 = transport 0 → transport2 1 = transport 1 →
      doRequest transport2 server baseURL a method path headers =
        doRequest transport server baseURL a method path headers) := by
  refine ⟨fun hne => ?_, fun h401 => ⟨fun e herr => ?_, fun a2 hok => ?_⟩,
    fun transport2 h0 h1 => ?_⟩
  · simp [doRequest, hne]
  · simp [doRequest, h401, herr]
  · refine ⟨by simp [doRequest, h401, hok], rfl, rfl, rfl, rfl, rfl⟩
  · simp [doRequest, h0, h1]

/-- C4 witness: a 401 Bearer challenge followed by a successful token fetch
produces exactly one retried request carrying the bearer credential, and the
retry's 200 response is returned. -/
theorem doRequest_retry_policy_witness :
    doRequest sampleTransport sampleTokenServer "https://registry-1.docker.io"
        sampleAnon "GET" "/library/nginx/manifests/latest" [] =
      .ok (sampleOk200, withToken sampleAnon "tok123") ∧
    (mkRequest "https://registry-1.docker.io" (withToken sampleAnon "tok123")
        "GET" "/library/nginx/manifests/latest" []).credential =
      .bearer "tok123" := by
  have h :=
    ((doRequest_retry_policy sampleTransport sampleTokenServer
      "https://registry-1.docker.io" sampleAnon "GET"
      "/library/nginx/manifests/latest" []).2.1 (by decide)).2
      (withToken sampleAnon "tok123") rfl
  exact ⟨h.1, rfl⟩

/-- C10: a 401 response with no `Www-Authenticate` header makes challenge
handling fail with "no Www-Authenticate header found", so `doRequest`
surfaces an authentication failure; the request is never re-issued — the
outcome is the same under any transport that agrees on attempt 0. -/
theorem doRequest_missing_challenge_header
    (transport : Nat → Request → HttpResponse)
    (server : TokenRequest → TokenResponse) (baseURL : String)
    (a : AuthConfig) (method path : String)
    (headers : List (String × String))
    (hstatus :
      (transport 0 (mkRequest baseURL a method path headers)).status = 401)
    (hheader :
      (transport 0 (mkRequest baseURL a method path headers)).wwwAuthenticate =
        "") :
    doRequest transport server baseURL a method path headers =
      .error "authentication failed: no Www-Authenticate header found" ∧
    (∀ transport2 : Nat → Request → HttpResponse,
      transport2 0 = transport 0 →
      doRequest transport2 server baseURL a method path headers =
        .error "authentication failed: no Www-Authenticate header found") := by
  constructor
  · simp [doRequest, hstatus, handleAuthChallenge, hheader]
  · intro transport2 h0
    simp [doRequest, h0, hstatus, handleAuthChallenge, hheader]

/-- C10 witness: the concrete headerless 401 transport. -/
theorem doRequest_missing_challenge_header_witness :
    doRequest sampleTransport401 sampleTokenServer
        "https://registry-1.docker.io" sampleAnon "GET" "/" [] =
      .error "authentication failed: no Www-Authenticate header found" :=
  (doRequest_missing_challenge_header sampleTransport401 sampleTokenServer
    "https://registry-1.docker.io" sampleAnon "GET" "/" [] (by decide)
    (by decide)).1

/-! ### Bearer challenge resolution (C8) -/

/-- C8: bearer challenge resolution requires `realm` among the parsed
attributes (else it fails); otherwise a GET is issued to the realm with the
`service`/`scope` attributes as query parameters and basic auth attached
exactly when credentials are known; a non-200 response is an authentication
error; the result is the `token` field when non-empty, else `access_token`
when non-empty, and both empty is an error; a fetched token is stored in the
session state and from then on attached as the bearer credential. -/
theorem bearerChallenge_resolution (server : TokenRequest → TokenResponse)
    (a : AuthConfig) (header : String) :
    (lookupParam (parseAuthHeader header) "realm" = none →
      handleBearerAuth server a header =
        .error "no realm found in Www-Authenticate header") ∧
    (∀ realm, lookupParam (parseAuthHeader header) "realm" = some realm →
      (a.username ≠ "" ∧ a.password ≠ "" →
        (fetchTokenRequest a realm
          ((lookupParam (parseAuthHeader header) "service").getD "")
          ((lookupParam (parseAuthHeader header) "scope").getD "")).basicAuth =
          some (a.username, a.password)) ∧
      (¬(a.username ≠ "" ∧ a.password ≠ "") →
        (fetchTokenRequest a realm
          ((lookupParam (parseAuthHeader header) "service").getD "")
          ((lookupParam (parseAuthHeader header) "scope").getD "")).basicAuth =
          none) ∧
      (∀ resp, resp = server (fetchTokenRequest a realm
          ((lookupParam (parseAuthHeader header) "service").getD "")
          ((lookupParam (parseAuthHeader header) "scope").getD "")) →
        (resp.status ≠ 200 →
          handleBearerAuth server a header =
            .error ("failed to fetch token: token request failed with status: "
              ++ toString resp.status)) ∧
        (resp.status = 200 → resp.token ≠ "" →
          handleBearerAuth server a header = .ok (withToken a resp.token) ∧
          addAuth (withToken a resp.token) = .bearer resp.token) ∧
        (resp.status = 200 → resp.token = "" → resp.accessToken ≠ "" →
          handleBearerAuth server a header =
            .ok (withToken a resp.accessToken) ∧
          addAuth (withToken a resp.accessToken) = .bearer resp.accessToken) ∧
        (resp.status = 200 → resp.token = "" → resp.accessToken = "" →
          handleBearerAuth server a header =
            .error "failed to fetch token: no token in response"))) := by
  refine ⟨fun hnone => ?_, fun realm hrealm => ⟨fun hcred => ?_,
    fun hcred => ?_, fun resp hresp => ⟨fun hst => ?_,
    fun hst htok => ⟨?_, ?_⟩, fun hst htok hacc => ⟨?_, ?_⟩,
    fun hst htok hacc => ?_⟩⟩⟩
  · simp [handleBearerAuth, hnone]
  · simp [fetchTokenRequest, hcred]
  · simp [fetchTokenRequest, hcred]
  · subst hresp
    simp [handleBearerAuth, hrealm, fetchToken, hst]
    rw [← String.append_assoc]
    congr 1
  · subst hresp
    simp [handleBearerAuth, hrealm, fetchToken, hst, htok]
  · simp [addAuth, withToken, htok]
  · subst hresp
    simp [handleBearerAuth, hrealm, fetchToken, hst, htok, hacc]
  · simp [addAuth, withToken, hacc]
  · subst hresp
    simp [handleBearerAuth, hrealm, fetchToken, hst, htok, hacc]

/-- C8 witness: a concrete Bearer challenge resolved against the sample token
endpoint stores and attaches `tok123`. -/
theorem bearerChallenge_resolution_witness :
    handleBearerAuth sampleTokenServer sampleAnon
        "Bearer realm=\"https://auth.example/token\",service=\"registry\"" =
      .ok (withToken sampleAnon "tok123") ∧
    addAuth (withToken sampleAnon "tok123") = .bearer "tok123" := by
  have h :=
    (((bearerChallenge_resolution sampleTokenServer sampleAnon
      "Bearer realm=\"https://auth.example/token\",service=\"registry\"").2
      "https://auth.example/token" (by decide)).2.2
      ⟨200, "tok123", ""⟩ rfl).2.1 rfl (by decide)
  exact ⟨h.1, h.2⟩

/-! ### Blob-upload idempotence policy (C7) -/

theorem containsStr_append_right (a b pat : String)
    (h : containsStr b pat = true) : containsStr (a ++ b) pat = true := by
  unfold containsStr at h ⊢
  rw [String.data_append]
  exact containsSub_append_left h

/-- C7: when the monolithic PUT fails (any non-201 status) after a successful
session start, the upload error text embeds the response body; the push
caller treats the failure as success exactly when the text contains one of
`BLOB_UPLOAD_INVALID`, `already exists`, `exist blob` — a body containing one
of them lets the push continue, and an error text containing none of them
aborts the push. -/
theorem pushBlobUpload_idempotence (baseURL : String)
    (postResp putResp : HttpResponse) (hpost : postResp.status = 202)
    (hloc : postResp.location ≠ "") (hput : putResp.status ≠ 201) :
    uploadBlob baseURL postResp putResp =
      .error ("failed to upload blob: " ++
        ("unexpected status code " ++ toString putResp.status ++ ": " ++
          putResp.body)) ∧
    (containsStr putResp.body "BLOB_UPLOAD_INVALID" = true ∨
        containsStr putResp.body "already exists" = true ∨
        containsStr putResp.body "exist blob" = true →
      pushTreatsUploadAsSuccess (uploadBlob baseURL postResp putResp) =
        true) ∧
    (∀ e, uploadBlob baseURL postResp putResp = .error e →
      isBlobExistsError e = false →
      pushTreatsUploadAsSuccess (uploadBlob baseURL postResp putResp) =
        false) := by
  have hstart : ∃ u, startBlobUpload baseURL postResp = .ok u := by
    unfold startBlobUpload
    rw [if_neg (by simp [hpost]), if_neg (by simp [hloc])]
    by_cases hp : (hasPrefixStr postResp.location "http://" ||
        hasPrefixStr postResp.location "https://") = true
    · exact ⟨postResp.location, by rw [if_pos hp]⟩
    · exact ⟨baseURL ++ "/v2" ++ postResp.location, by rw [if_neg hp]⟩
  obtain ⟨u, hu⟩ := hstart
  have hupload : uploadBlob baseURL postResp putResp =
      .error ("failed to upload blob: " ++
        ("unexpected status code " ++ toString putResp.status ++ ": " ++
          putResp.body)) := by
    simp [uploadBlob, hu, uploadBlobMonolithic, hput]
  refine ⟨hupload, fun hsub => ?_, fun e he hnot => ?_⟩
  · rw [hupload]
    show isBlobExistsError _ = true
    unfold isBlobExistsError
    rcases hsub with h | h | h
    · rw [containsStr_append_right _ _ _ (containsStr_append_right
        ("unexpected status code " ++ toString putResp.status ++ ": ") _ _ h)]
      rfl
    · rw [containsStr_append_right _ _ _ (containsStr_append_right
        ("unexpected status code " ++ toString putResp.status ++ ": ") _ _ h)]
      simp
    · rw [containsStr_append_right _ _ _ (containsStr_append_right
        ("unexpected status code " ++ toString putResp.status ++ ": ") _ _ h)]
      simp
  · rw [he]
    show isBlobExistsError e = false
    exact hnot

/-- C7 witness: an already-exists PUT body is treated as success and the push
continues; an unrelated failure body is treated as an error. -/
theorem pushBlobUpload_idempotence_witness :
    pushTreatsUploadAsSuccess
      (uploadBlob "https://harbor.example" samplePost202 samplePutExists) =
        true ∧
    pushTreatsUploadAsSuccess
      (uploadBlob "https://harbor.example" samplePost202 samplePutDenied) =
        false := by
  constructor
  · exact (pushBlobUpload_idempotence "https://harbor.example" samplePost202
      samplePutExists (by decide) (by decide) (by decide)).2.1
      (Or.inr (Or.inl (by decide)))
  · exact (pushBlobUpload_idempotence "https://harbor.example" samplePost202
      samplePutDenied (by decide) (by decide) (by decide)).2.2
      "failed to upload blob: unexpected status code 403: access denied"
      rfl (by decide)

/-! ### Store lookup and removal (C9) -/

theorem pathExists_iff_mem (fs : List String) (p : String) :
    pathExists fs p = true ↔ p ∈ fs := by
  simp [pathExists, List.contains, List.elem_iff]

theorem pathExists_removeAll_self (fs : List String) (d : String) :
    pathExists (removeAllFS fs d) d = false := by
  cases hb : pathExists (removeAllFS fs d) d with
  | false => rfl
  | true =>
    exfalso
    have hmem := (pathExists_iff_mem _ _).mp hb
    have := (List.mem_filter.mp hmem).2
    simp at this

theorem pathExists_removeAll_of_absent (fs : List String) (d p : String)
    (h : pathExists fs p = false) :
    pathExists (removeAllFS fs d) p = false := by
  cases hb : pathExists (removeAllFS fs d) p with
  | false => rfl
  | true =>
    exfalso
    have hmem := (pathExists_iff_mem _ _).mp hb
    have hp := (List.mem_filter.mp hmem).1
    have := (pathExists_iff_mem fs p).mpr hp
    rw [h] at this
    exact Bool.false_ne_true this

/-- C9 (amended): `findImageDir` probes the current-encoding directory first
and the legacy-encoding directory only when the first is absent; removing a
reference for which neither directory exists fails with the not-found error
and returns the filesystem unchanged; after a successful `RemoveImage` the
reference no longer exists **provided both encodings' directories were not
simultaneously present** (when both exist, only the current-encoding
directory is removed and `ImageExists` still reports true — see the
counterexample). -/
theorem imageLookup_remove_policy (fs : List String)
    (rootDir imageName : String) :
    (pathExists fs (rootDir ++ "/images" ++ "/" ++ encodeNewStr imageName) =
        true →
      findImageDir fs rootDir imageName =
        some (rootDir ++ "/images" ++ "/" ++ encodeNewStr imageName)) ∧
    (pathExists fs (rootDir ++ "/images" ++ "/" ++ encodeNewStr imageName) =
        false →
      pathExists fs (rootDir ++ "/images" ++ "/" ++ encodeOldStr imageName) =
        true →
      findImageDir fs rootDir imageName =
        some (rootDir ++ "/images" ++ "/" ++ encodeOldStr imageName)) ∧
    (pathExists fs (rootDir ++ "/images" ++ "/" ++ encodeNewStr imageName) =
        false →
      pathExists fs (rootDir ++ "/images" ++ "/" ++ encodeOldStr imageName) =
        false →
      removeImage fs rootDir imageName = (.error "image not found", fs)) ∧
    (¬(pathExists fs (rootDir ++ "/images" ++ "/" ++ encodeNewStr imageName) =
          true ∧
        pathExists fs (rootDir ++ "/images" ++ "/" ++ encodeOldStr imageName) =
          true) →
      (removeImage fs rootDir imageName).1 = .ok () →
      imageExists (removeImage fs rootDir imageName).2 rootDir imageName =
        false) := by
  refine ⟨fun hnew => ?_, fun hnew hold => ?_, fun hnew hold => ?_,
    fun hboth hok => ?_⟩
  · simp [findImageDir, hnew]
  · simp [findImageDir, hnew, hold]
  · simp [removeImage, findImageDir, hnew, hold]
  · by_cases hnew : pathExists fs
        (rootDir ++ "/images" ++ "/" ++ encodeNewStr imageName) = true
    · have hold : pathExists fs
          (rootDir ++ "/images" ++ "/" ++ encodeOldStr imageName) = false := by
        cases hb : pathExists fs
            (rootDir ++ "/images" ++ "/" ++ encodeOldStr imageName) with
        | false => rfl
        | true => exact absurd ⟨hnew, hb⟩ hboth
      have hrm : removeImage fs rootDir imageName =
          (.ok (), removeAllFS fs
            (rootDir ++ "/images" ++ "/" ++ encodeNewStr imageName)) := by
        simp [removeImage, findImageDir, hnew]
      rw [hrm]
      simp only [imageExists, findImageDir]
      rw [pathExists_removeAll_self,
        pathExists_removeAll_of_absent _ _ _ hold]
      rfl
    · have hnew' : pathExists fs
          (rootDir ++ "/images" ++ "/" ++ encodeNewStr imageName) = false :=
        Bool.not_eq_true _ ▸ Bool.eq_false_iff.mpr hnew
      cases hold : pathExists fs
          (rootDir ++ "/images" ++ "/" ++ encodeOldStr imageName) with
      | true =>
        have hrm : removeImage fs rootDir imageName =
            (.ok (), removeAllFS fs
              (rootDir ++ "/images" ++ "/" ++ encodeOldStr imageName)) := by
          simp [removeImage, findImageDir, hnew', hold]
        rw [hrm]
        simp only [imageExists, findImageDir]
        rw [pathExists_removeAll_of_absent _ _ _ hnew',
          pathExists_removeAll_self]
        rfl
      | false =>
        have hrm : removeImage fs rootDir imageName =
            (.error "image not found", fs) := by
          simp [removeImage, findImageDir, hnew', hold]
        rw [hrm] at hok
        exact absurd hok (by simp)

/-- C9 counterexample: when the same reference is stored under both the
current and the legacy encoding, a successful `RemoveImage` deletes only the
current-encoding directory and `ImageExists` still returns true. -/
theorem removeImage_both_encodings_counterexample :
    (removeImage sampleFsBoth "/root/.timage" "nginx:latest").1 = .ok () ∧
    (removeImage sampleFsBoth "/root/.timage" "nginx:latest").2 =
      ["/root/.timage/images/nginx_latest"] ∧
    imageExists (removeImage sampleFsBoth "/root/.timage" "nginx:latest").2
      "/root/.timage" "nginx:latest" = true := by
  refine ⟨rfl, by decide, by decide⟩

/-- C9 witness: with the reference stored only under the current encoding,
removal succeeds and the reference then no longer exists. -/
theorem imageLookup_remove_policy_witness :
    findImageDir sampleFsNew "/root/.timage" "nginx:latest" =
      some "/root/.timage/images/nginx_COLON_latest" ∧
    imageExists (removeImage sampleFsNew "/root/.timage" "nginx:latest").2
      "/root/.timage" "nginx:latest" = false := by
  constructor
  · exact (imageLookup_remove_policy sampleFsNew "/root/.timage"
      "nginx:latest").1 (by decide)
  · exact (imageLookup_remove_policy sampleFsNew "/root/.timage"
      "nginx:latest").2.2.2 (by decide) rfl

/-! ### Raw manifest preservation (C2) -/

/-- C2 (amended): `GetManifestRaw` returns the response body byte-for-byte
(no re-serialization) and `SaveManifestRaw` stores its input unchanged;
consequently the pull path stores exactly the transmitted bytes for every
content type **except** the OCI image manifest type, for which cmd/pull.go
first rewrites OCI media-type strings to their Docker equivalents (see the
counterexample). -/
theorem manifest_raw_preservation (resp : HttpResponse)
    (store : String → Option String) (imageName data raw ct : String) :
    (resp.status = 200 →
      getManifestRaw resp = .ok (resp.body, resp.contentType)) ∧
    loadManifestRaw (saveManifestRaw store imageName data) imageName =
      some data ∧
    (ct ≠ ociManifestMT → convertManifestForStorage raw ct = raw) ∧
    (ct ≠ ociManifestMT →
      loadManifestRaw (pullSaveManifest store imageName raw ct) imageName =
        some raw) := by
  refine ⟨fun h200 => ?_, ?_, fun hct => ?_, fun hct => ?_⟩
  · simp [getManifestRaw, h200]
  · simp [loadManifestRaw, saveManifestRaw]
  · simp [convertManifestForStorage, hct]
  · simp [pullSaveManifest, loadManifestRaw, saveManifestRaw,
      convertManifestForStorage, hct]

/-- C2 counterexample: under the OCI image-manifest content type the stored
bytes differ from the received bytes — the OCI config media type has been
rewritten to the Docker one. -/
theorem pull_stores_converted_oci_counterexample :
    loadManifestRaw
        (pullSaveManifest (fun _ => none) "nginx:latest" sampleOciRaw
          ociManifestMT) "nginx:latest" ≠ some sampleOciRaw ∧
    loadManifestRaw
        (pullSaveManifest (fun _ => none) "nginx:latest" sampleOciRaw
          ociManifestMT) "nginx:latest" =
      some
        "mediaType application/vnd.docker.container.image.v1+json digest sha256 abc" := by
  constructor
  · decide
  · decide

/-- C2 witness: for a non-OCI content type the stored bytes are exactly the
received bytes. -/
theorem manifest_raw_preservation_witness :
    getManifestRaw sampleOk200 = .ok ("manifest-bytes", dockerManifestMT) ∧
    loadManifestRaw
        (pullSaveManifest (fun _ => none) "nginx:latest" "manifest-bytes"
          dockerManifestMT) "nginx:latest" = some "manifest-bytes" := by
  constructor
  · exact (manifest_raw_preservation sampleOk200 (fun _ => none) "nginx:latest"
      "" "manifest-bytes" dockerManifestMT).1 (by decide)
  · exact (manifest_raw_preservation sampleOk200 (fun _ => none) "nginx:latest"
      "" "manifest-bytes" dockerManifestMT).2.2.2 (by decide)

end Timage
